import Mathlib

/-!
Verification of the float-rounding core of rust-lexical against its
natural-language specification.

The mantissa type `M` (`u64` or `u128` in the source) is embedded as `Nat`
together with an explicit width `bits`; machine overflow is made explicit with
`% 2 ^ bits` exactly where the machine arithmetic wraps.  Exponents (`i32` in
the source) are embedded as `Int`.
-/

-- DATA MODEL

/-- Modelled from the spec: "Extended Float⟨M⟩: { significand: M, exponent: i32 }"
(the struct itself lives in float.rs, which is not part of the provided sources;
field names `frac`/`exp` follow the uses in rounding.rs). -/
structure ExtendedFloat where
  frac : Nat
  exp : Int
deriving DecidableEq

/-- RoundingParameters from rounding.rs: mask, midway point and shift count. -/
structure RoundingParameters where
  mask : Nat
  mid : Nat
  shift : Int
deriving DecidableEq

/-- Default table entry used for the embedding of `get_unchecked`. -/
def default_params : RoundingParameters :=
  { mask := 0, mid := 0, shift := 0 }

/-- Modelled from the spec: the per-native-float capability set
(`MANTISSA_SIZE`, `DENORMAL_EXPONENT`, `MAX_EXPONENT` live in util, not in the
provided sources) together with `CARRY_MASK` and `OVERFLOW_MASK`, whose literal
values are given in rounding.rs. -/
structure FloatTraits where
  mantissa_size : Int
  denormal_exponent : Int
  max_exponent : Int
  carry_mask : Nat
  overflow_mask : List Nat
deriving DecidableEq

-- SHIFTS

/-- Modelled from the spec: "shr(fp, n): shift significand right by n,
adjusting exponent by +n" (shift.rs is not in the provided sources).
Right shift discards low bits. -/
def shr (fp : ExtendedFloat) (shift : Int) : ExtendedFloat :=
  { frac := fp.frac >>> shift.toNat, exp := fp.exp + shift }

/-- Modelled from the spec: "shl(fp, n): shift significand left by n,
adjusting exponent by -n" (shift.rs is not in the provided sources).  A left
shift of a width-`bits` machine integer truncates to the low `bits` bits,
which is what the spec's overflow-mask guard exists to protect against. -/
def shl (bits : Nat) (fp : ExtendedFloat) (shift : Int) : ExtendedFloat :=
  { frac := (fp.frac <<< shift.toNat) % 2 ^ bits, exp := fp.exp - shift }

-- ROUNDING KERNEL (rounding.rs, round_nearest / round_nearest_tie_even)

/-- round_nearest from rounding.rs: extract the truncated bits with the mask,
compare against the midway point, shift right, and return the two flags. -/
def round_nearest (fp : ExtendedFloat) (params : RoundingParameters) :
    ExtendedFloat × Bool × Bool :=
  let truncated_bits := fp.frac &&& params.mask
  let is_above := decide (params.mid < truncated_bits)
  let is_halfway := decide (truncated_bits = params.mid)
  (shr fp params.shift, is_above, is_halfway)

/-- round_nearest_tie_even from rounding.rs: round_nearest, then add one to
the significand iff above-halfway, or at halfway with an odd low bit.  The
add is the wrapping machine add of the mantissa type. -/
def round_nearest_tie_even (bits : Nat) (fp : ExtendedFloat)
    (params : RoundingParameters) : ExtendedFloat :=
  let r := round_nearest fp params
  let fp1 := r.1
  let is_odd := decide (fp1.frac &&& 1 = 1)
  let is_roundup := r.2.1 || (is_odd && r.2.2)
  { fp1 with frac := (fp1.frac + (if is_roundup then 1 else 0)) % 2 ^ bits }

/-- round_nearest_tie_away_zero from rounding.rs: add one iff above or at
halfway. -/
def round_nearest_tie_away_zero (bits : Nat) (fp : ExtendedFloat)
    (params : RoundingParameters) : ExtendedFloat :=
  let r := round_nearest fp params
  let fp1 := r.1
  let is_roundup := r.2.1 || r.2.2
  { fp1 with frac := (fp1.frac + (if is_roundup then 1 else 0)) % 2 ^ bits }

-- ROUNDING PARAMETER TABLE AND NATIVE-FLOAT CONSTANTS

/-- Modelled from the spec: "Rounding Parameters⟨M⟩ ... precomputed per shift
amount in 0..bits(M).  mask has the low shift bits set; mid is 1 << (shift-1)"
(the table constant `M::ROUNDING_PARAMETERS` lives in mantissa.rs, which is not
in the provided sources; for shift 0 the midway point of an empty truncated-bit
field is 0).  Validated against the table entries exercised by the tests in
rounding.rs (entry 6 is mask 0x3F, mid 0x20). -/
def rounding_parameters (bits : Nat) : List RoundingParameters :=
  (List.range bits).map fun (s : Nat) =>
    { mask := 2 ^ s - 1, mid := if s = 0 then 0 else 2 ^ (s - 1), shift := (s : Int) }

/-- DEFAULT_SHIFT from rounding.rs: `$t::BITS - T::MANTISSA_SIZE - 1`. -/
def default_shift (bits : Nat) (T : FloatTraits) : Int :=
  (bits : Int) - T.mantissa_size - 1

/-- FloatRounding impl for f32 from rounding.rs (identical literals for the
u64 and u128 mantissa widths; the macro instantiates both).  `mantissa_size`,
`denormal_exponent` and `max_exponent` are modelled from the spec (f32 has a
23-bit mantissa field, denormal exponent 1 - (127 + 23) and maximum unbiased
exponent 0xFF - (127 + 23)). -/
def f32_traits : FloatTraits :=
  { mantissa_size := 23
    denormal_exponent := -149
    max_exponent := 105
    carry_mask := 0x1000000
    overflow_mask := [
      0x00800000, 0x00C00000, 0x00E00000, 0x00F00000, 0x00F80000, 0x00FC0000,
      0x00FE0000, 0x00FF0000, 0x00FF8000, 0x00FFC000, 0x00FFE000, 0x00FFF000,
      0x00FFF800, 0x00FFFC00, 0x00FFFE00, 0x00FFFF00, 0x00FFFF80, 0x00FFFFC0,
      0x00FFFFE0, 0x00FFFFF0, 0x00FFFFF8, 0x00FFFFFC, 0x00FFFFFE, 0x00FFFFFF] }

/-- FloatRounding impl for f64 from rounding.rs (identical literals for the
u64 and u128 mantissa widths).  `mantissa_size`, `denormal_exponent` and
`max_exponent` are modelled from the spec (f64 has a 52-bit mantissa field,
denormal exponent 1 - (1023 + 52), maximum unbiased exponent 0x7FF - (1023 + 52);
the spec scenario "5e-324 → 1p-1074" pins the denormal exponent). -/
def f64_traits : FloatTraits :=
  { mantissa_size := 52
    denormal_exponent := -1074
    max_exponent := 972
    carry_mask := 0x20000000000000
    overflow_mask := [
      0x0010000000000000, 0x0018000000000000, 0x001C000000000000,
      0x001E000000000000, 0x001F000000000000, 0x001F800000000000,
      0x001FC00000000000, 0x001FE00000000000, 0x001FF00000000000,
      0x001FF80000000000, 0x001FFC0000000000, 0x001FFE0000000000,
      0x001FFF0000000000, 0x001FFF8000000000, 0x001FFFC000000000,
      0x001FFFE000000000, 0x001FFFF000000000, 0x001FFFF800000000,
      0x001FFFFC00000000, 0x001FFFFE00000000, 0x001FFFFF00000000,
      0x001FFFFF80000000, 0x001FFFFFC0000000, 0x001FFFFFE0000000,
      0x001FFFFFF0000000, 0x001FFFFFF8000000, 0x001FFFFFFC000000,
      0x001FFFFFFE000000, 0x001FFFFFFF000000, 0x001FFFFFFF800000,
      0x001FFFFFFFC00000, 0x001FFFFFFFE00000, 0x001FFFFFFFF00000,
      0x001FFFFFFFF80000, 0x001FFFFFFFFC0000, 0x001FFFFFFFFE0000,
      0x001FFFFFFFFF0000, 0x001FFFFFFFFF8000, 0x001FFFFFFFFFC000,
      0x001FFFFFFFFFE000, 0x001FFFFFFFFFF000, 0x001FFFFFFFFFF800,
      0x001FFFFFFFFFFC00, 0x001FFFFFFFFFFE00, 0x001FFFFFFFFFFF00,
      0x001FFFFFFFFFFF80, 0x001FFFFFFFFFFFC0, 0x001FFFFFFFFFFFE0,
      0x001FFFFFFFFFFFF0, 0x001FFFFFFFFFFFF8, 0x001FFFFFFFFFFFFC,
      0x001FFFFFFFFFFFFE, 0x001FFFFFFFFFFFFF] }

-- ROUND TO FLOAT (rounding.rs, round_to_float)

/-- The branch structure of round_to_float from rounding.rs before the carry
check: underflow detection via `final_exp`, the denormal path with its table
lookup (`get_unchecked`, embedded as `getD`) or zeroing, and the normal path
using the parameters at `DEFAULT_SHIFT` (the `ROUNDING_PARAMS` constant). -/
def round_to_float_step (bits : Nat) (T : FloatTraits) (fp : ExtendedFloat) :
    ExtendedFloat :=
  let final_exp := fp.exp + default_shift bits T
  if final_exp < T.denormal_exponent then
    let diff := T.denormal_exponent - fp.exp
    if diff < (bits : Int) then
      let params := (rounding_parameters bits).getD diff.toNat default_params
      round_nearest_tie_even bits fp params
    else
      { frac := 0, exp := 0 }
  else
    round_nearest_tie_even bits fp
      ((rounding_parameters bits).getD (default_shift bits T).toNat default_params)

/-- round_to_float from rounding.rs: the branch step above followed by the
carry check against `CARRY_MASK`. -/
def round_to_float (bits : Nat) (T : FloatTraits) (fp : ExtendedFloat) :
    ExtendedFloat :=
  let fp1 := round_to_float_step bits T fp
  if fp1.frac &&& T.carry_mask = T.carry_mask then shr fp1 1 else fp1

-- AVOID OVERFLOW (rounding.rs, avoid_overflow)

/-- avoid_overflow from rounding.rs: when the exponent is at or above
MAX_EXPONENT and the overflow-mask table shows the needed headroom, shift
left by `diff + 1` to bring the exponent back into range. -/
def avoid_overflow (bits : Nat) (T : FloatTraits) (fp : ExtendedFloat) :
    ExtendedFloat :=
  if T.max_exponent ≤ fp.exp then
    let diff := fp.exp - T.max_exponent
    let idx := diff.toNat
    match T.overflow_mask[idx]? with
    | some mask => if fp.frac &&& mask = 0 then shl bits fp (diff + 1) else fp
    | none => fp
  else
    fp

-- DIVISION BY 100 (lexical-benchmark/algorithm/division.rs)

/-- standard_div from division.rs: quotient and remainder by 100. -/
def standard_div (v : Nat) : Nat × Nat :=
  (v / 100, v % 100)

/-- fast_div from division.rs: multiply by ceil(2^19 / 100) and shift right by
19 in u32 arithmetic (wrapping multiply and subtract are the explicit
`% 2 ^ 32`). -/
def fast_div (v : Nat) : Nat × Nat :=
  let divisor := 100
  let max_precision := 14
  let additional_precision := 5
  let left_end := ((1 <<< (max_precision + additional_precision)) + divisor - 1) / divisor
  let quotient := ((v * left_end) % 2 ^ 32) >>> (max_precision + additional_precision)
  let remainder := (v + 2 ^ 32 - (divisor * quotient) % 2 ^ 32) % 2 ^ 32
  (quotient, remainder)

-- ERROR TAXONOMY AND STRICT PARSING (traits.rs, §4.4/§6/§7 of the spec)

/-- Error taxonomy from the spec §7 (error.rs is not in the provided sources;
the kinds are Empty, InvalidDigit(i), Overflow, IncompleteFormat). -/
inductive Error where
  | overflow : Error
  | empty : Error
  | invalidDigit : Nat → Error
  | incompleteFormat : Nat → Error
deriving DecidableEq

/-- Modelled from the spec: §4.4 digit alphabet, bytes 0-9 then a-z / A-Z for
values at least 10. -/
def digit_value (b : Nat) : Option Nat :=
  if 48 ≤ b ∧ b ≤ 57 then some (b - 48)
  else if 65 ≤ b ∧ b ≤ 90 then some (b - 65 + 10)
  else if 97 ≤ b ∧ b ≤ 122 then some (b - 97 + 10)
  else none

/-- A byte is a digit of the given radix when its value is below the radix. -/
def is_digit (radix b : Nat) : Bool :=
  match digit_value b with
  | some v => decide (v < radix)
  | none => false

/-- Length of the leading run of digits of the given radix. -/
def digit_run (radix : Nat) : List Nat → Nat
  | [] => 0
  | b :: rest => if is_digit radix b then digit_run radix rest + 1 else 0

/-- Modelled from the spec: §4.4 exponent marker, e/E for radix at most 10 and
caret for larger radices where e is itself a digit. -/
def exp_marker (radix b : Nat) : Bool :=
  if radix ≤ 10 then b = 101 || b = 69 else b = 94

/-- Modelled from the spec: the §4.4/§4.8 digit scanner (atof.rs is not in the
provided sources).  Scans optional sign, integer digits, optional point and
fraction digits, and an optional signed base-10 exponent after the marker
(the marker is consumed only when at least one exponent digit follows).
Returns the number of consumed bytes and the number of significand digits. -/
def scan_float (radix : Nat) (bytes : List Nat) : Nat × Nat :=
  let hasSign : Bool := match bytes with
    | b :: _ => b = 43 || b = 45
    | [] => false
  let nsign := if hasSign then 1 else 0
  let rest0 := bytes.drop nsign
  let ni := digit_run radix rest0
  let rest1 := rest0.drop ni
  let hasDot : Bool := match rest1 with
    | 46 :: _ => true
    | _ => false
  let ndot := if hasDot then 1 else 0
  let rest2 := rest1.drop ndot
  let nf := if hasDot then digit_run radix rest2 else 0
  let rest3 := rest2.drop nf
  let nexp : Nat :=
    match rest3 with
    | b :: r =>
      if exp_marker radix b then
        let hasEsign : Bool := match r with
          | c :: _ => c = 43 || c = 45
          | [] => false
        let nes := if hasEsign then 1 else 0
        let ke := digit_run 10 (r.drop nes)
        if 0 < ke then 1 + nes + ke else 0
      else 0
    | [] => 0
  (nsign + ni + ndot + nf + nexp, ni + nf)

/-- Modelled from the spec: §6 parse_float_lenient consumes the longest valid
prefix; an empty digit prefix is an error.  Only the consumed length and the
error behaviour are modelled (the numeric value is irrelevant to the claims
about the strict wrapper); success returns the consumed byte count. -/
def parse_float_lenient (radix : Nat) (bytes : List Nat) : Option Nat :=
  let r := scan_float radix bytes
  if r.2 = 0 then none else some r.1

/-- Modelled from the spec: §4.4 "the try-variant treats trailing
non-whitespace as invalid_digit@consumed", which is exactly what the
repository test in traits.rs asserts (try_from_bytes(b"0.0a", 10) =
Err(invalid_digit(3))); the strict path is exposed as try_from_bytes in
traits.rs.  Success carries no payload here (the value is not modelled). -/
def try_from_bytes (radix : Nat) (bytes : List Nat) : Except Error Unit :=
  match parse_float_lenient radix bytes with
  | none => .error (.invalidDigit 0)
  | some consumed =>
    if consumed < bytes.length then .error (.invalidDigit consumed) else .ok ()

/-- Decidable equality of parse results, for evaluating concrete inputs. -/
instance : DecidableEq (Except Error Unit) := fun a b =>
  match a, b with
  | .ok u, .ok v => decidable_of_iff (u = v) (by simp)
  | .error e1, .error e2 => decidable_of_iff (e1 = e2) (by simp)
  | .ok _, .error _ => .isFalse (by simp)
  | .error _, .ok _ => .isFalse (by simp)

-- SPEC PREDICATES

/-- The property C1 asserts of round_nearest: the flags are the comparisons of
the truncated bits against the midway point, the shift is applied to the
significand and the exponent, and the below/at/above classes are pairwise
disjoint and cover every input. -/
def round_nearest_spec (fp : ExtendedFloat) (params : RoundingParameters) : Prop :=
  let t := fp.frac &&& params.mask
  let r := round_nearest fp params
  r.2.1 = decide (params.mid < t) ∧
  r.2.2 = decide (t = params.mid) ∧
  r.1.frac = fp.frac >>> params.shift.toNat ∧
  r.1.exp = fp.exp + params.shift ∧
  ¬(params.mid < t ∧ t = params.mid) ∧
  ¬(params.mid < t ∧ t < params.mid) ∧
  ¬(t = params.mid ∧ t < params.mid) ∧
  (params.mid < t ∨ t = params.mid ∨ t < params.mid)

/-- The property C2 asserts of round_nearest_tie_even: the significand is the
post-shift significand plus one exactly when above halfway, or at halfway with
an odd post-shift low bit, and is the post-shift significand otherwise. -/
def tie_even_spec (bits : Nat) (fp : ExtendedFloat) (params : RoundingParameters) : Prop :=
  let r := round_nearest fp params
  let up := r.2.1 = true ∨ (r.2.2 = true ∧ r.1.frac &&& 1 = 1)
  (round_nearest_tie_even bits fp params).frac =
    (if up then r.1.frac + 1 else r.1.frac) ∧
  (round_nearest_tie_even bits fp params).exp = r.1.exp ∧
  r.1.frac = fp.frac >>> params.shift.toNat

/-- The property C8 asserts for a (mantissa width, native float) pair: the
constant index DEFAULT_SHIFT is within the rounding-parameter table, and so is
the denormal-branch index diff whenever the unchecked lookup executes. -/
def index_safety (bits : Nat) (T : FloatTraits) : Prop :=
  0 ≤ default_shift bits T ∧
  (default_shift bits T).toNat < (rounding_parameters bits).length ∧
  ∀ fp : ExtendedFloat,
    fp.exp + default_shift bits T < T.denormal_exponent →
    T.denormal_exponent - fp.exp < (bits : Int) →
    0 < T.denormal_exponent - fp.exp ∧
    (T.denormal_exponent - fp.exp).toNat < (rounding_parameters bits).length

-- HELPER LEMMAS

theorem rounding_parameters_length (bits : Nat) :
    (rounding_parameters bits).length = bits := by
  simp [rounding_parameters]

theorem rounding_parameters_getD (bits i : Nat) (h : i < bits) :
    (rounding_parameters bits).getD i default_params =
      { mask := 2 ^ i - 1, mid := if i = 0 then 0 else 2 ^ (i - 1),
        shift := (i : Int) } := by
  simp [rounding_parameters, List.getD, List.getElem?_map, List.getElem?_range, h]

theorem shiftRight_succ_lt_two_pow {frac bits s : Nat} (hs1 : 1 ≤ s)
    (hs2 : s ≤ bits) (hfrac : frac < 2 ^ bits) : frac >>> s + 1 < 2 ^ bits := by
  have h1 : frac >>> s < 2 ^ (bits - s) := by
    rw [Nat.shiftRight_eq_div_pow]
    rw [Nat.div_lt_iff_lt_mul (Nat.pos_pow_of_pos s (by norm_num))]
    calc frac < 2 ^ bits := hfrac
    _ = 2 ^ (bits - s) * 2 ^ s := by rw [← pow_add, Nat.sub_add_cancel hs2]
  have h2 : 2 ^ (bits - s) ≤ 2 ^ (bits - 1) :=
    Nat.pow_le_pow_right (by norm_num) (by omega)
  have h3 : 2 ^ (bits - 1) < 2 ^ bits :=
    Nat.pow_lt_pow_right (by norm_num) (by omega)
  omega

-- CLAIMS

/-- C1: round_nearest computes truncated = fp.frac AND params.mask, returns
above = (truncated > params.mid) and halfway = (truncated == params.mid), and
shifts fp right by params.shift; for every params with shift in [1, bits - 1]
and every input significand, the below/at/above classes are pairwise disjoint
and cover all inputs, and the post-shift significand equals the input
significand shifted right. -/
theorem c1_round_nearest (bits : Nat) (fp : ExtendedFloat)
    (params : RoundingParameters) (h1 : 1 ≤ params.shift)
    (h2 : params.shift ≤ (bits : Int) - 1) :
    round_nearest_spec fp params :=
  ⟨rfl, rfl, rfl, rfl, by omega, by omega, by omega, by omega⟩

/-- Witness for C1 at the table entry for shift 6 and the above-halfway test
input of rounding.rs. -/
theorem c1_round_nearest_witness :
    round_nearest_spec ⟨0x61, 0⟩ ⟨0x3F, 0x20, 6⟩ :=
  c1_round_nearest 64 ⟨0x61, 0⟩ ⟨0x3F, 0x20, 6⟩ (by decide) (by decide)

/-- C2: round_nearest_tie_even first performs round_nearest (truncate and
shift), then increments the post-shift significand by exactly one iff above,
or halfway with the post-shift low bit set; otherwise the significand remains
the input shifted right (shift in the table range [1, bits - 1], significand
within the mantissa width). -/
theorem c2_round_nearest_tie_even (bits : Nat) (fp : ExtendedFloat)
    (params : RoundingParameters) (h1 : 1 ≤ params.shift)
    (h2 : params.shift ≤ (bits : Int) - 1) (h3 : fp.frac < 2 ^ bits) :
    tie_even_spec bits fp params := by
  have hs1 : 1 ≤ params.shift.toNat := by omega
  have hs2 : params.shift.toNat ≤ bits := by omega
  have hlt : fp.frac >>> params.shift.toNat + 1 < 2 ^ bits :=
    shiftRight_succ_lt_two_pow hs1 hs2 h3
  have hle : fp.frac >>> params.shift.toNat < 2 ^ bits := by omega
  simp only [tie_even_spec, round_nearest_tie_even, round_nearest, shr]
  refine ⟨?_, by trivial, by trivial⟩
  by_cases hH : fp.frac &&& params.mask = params.mid
  · by_cases hO : fp.frac >>> params.shift.toNat % 2 = 1 <;>
      simp [hH, hO, Nat.mod_eq_of_lt hlt, Nat.mod_eq_of_lt hle]
  · by_cases hA : params.mid < fp.frac &&& params.mask <;>
      simp [hA, hH, Nat.mod_eq_of_lt hlt, Nat.mod_eq_of_lt hle]

/-- Witness for C2 at the table entry for shift 6 and the halfway round-up
test input of rounding.rs. -/
theorem c2_round_nearest_tie_even_witness :
    tie_even_spec 64 ⟨0x60, 0⟩ ⟨0x3F, 0x20, 6⟩ :=
  c2_round_nearest_tie_even 64 ⟨0x60, 0⟩ ⟨0x3F, 0x20, 6⟩ (by decide) (by decide)
    (by decide)

/-- C3: in round_to_float, when final_exp = fp.exp + DEFAULT_SHIFT is strictly
below DENORMAL_EXPONENT, with diff = DENORMAL_EXPONENT - fp.exp: if diff is at
least bits the float is zeroed, otherwise round-nearest-tie-even runs with the
parameters at index diff of the per-width table; when final_exp is at least
DENORMAL_EXPONENT, rounding uses the parameters at index DEFAULT_SHIFT. -/
theorem c3_round_to_float_branches (bits : Nat) (T : FloatTraits)
    (fp : ExtendedFloat) :
    (fp.exp + default_shift bits T < T.denormal_exponent →
      (bits : Int) ≤ T.denormal_exponent - fp.exp →
      round_to_float_step bits T fp = ⟨0, 0⟩) ∧
    (fp.exp + default_shift bits T < T.denormal_exponent →
      T.denormal_exponent - fp.exp < (bits : Int) →
      round_to_float_step bits T fp =
        round_nearest_tie_even bits fp
          ((rounding_parameters bits).getD (T.denormal_exponent - fp.exp).toNat
            default_params)) ∧
    (T.denormal_exponent ≤ fp.exp + default_shift bits T →
      round_to_float_step bits T fp =
        round_nearest_tie_even bits fp
          ((rounding_parameters bits).getD (default_shift bits T).toNat
            default_params)) := by
  refine ⟨?_, ?_, ?_⟩
  · intro h1 h2
    simp only [round_to_float_step]
    rw [if_pos h1, if_neg (by omega)]
  · intro h1 h2
    simp only [round_to_float_step]
    rw [if_pos h1, if_pos h2]
  · intro h1
    simp only [round_to_float_step]
    rw [if_neg (by omega)]

/-- Witness for C3 on the denormal branch, at the denormal test input of
rounding.rs (f64, frac 2^63, exponent DENORMAL_EXPONENT - 15 - 63). -/
theorem c3_round_to_float_branches_witness :
    round_to_float_step 64 f64_traits ⟨2 ^ 63, -1089⟩ =
      round_nearest_tie_even 64 ⟨2 ^ 63, -1089⟩
        ((rounding_parameters 64).getD
          (f64_traits.denormal_exponent - (ExtendedFloat.mk (2 ^ 63) (-1089)).exp).toNat
          default_params) :=
  (c3_round_to_float_branches 64 f64_traits ⟨2 ^ 63, -1089⟩).2.1 (by decide) (by decide)

/-- C4: in round_to_float, whenever the post-rounding significand masked with
CARRY_MASK equals CARRY_MASK, the significand is shifted right by one and the
exponent incremented by exactly one; and for every input on the normal branch
whose post-shift significand has all bits set below CARRY_MASK and for which
the round-up fires, the carry branch executes and the exponent increments
exactly once (final exponent = input exponent + DEFAULT_SHIFT + 1, significand
= the hidden bit). -/
theorem c4_carry_correctness (bits : Nat) (T : FloatTraits) (fp : ExtendedFloat) :
    ((round_to_float_step bits T fp).frac &&& T.carry_mask = T.carry_mask →
      round_to_float bits T fp = shr (round_to_float_step bits T fp) 1) ∧
    (0 ≤ T.mantissa_size →
      T.mantissa_size.toNat + 2 ≤ bits →
      T.denormal_exponent ≤ fp.exp + default_shift bits T →
      T.carry_mask = 2 ^ (T.mantissa_size.toNat + 1) →
      fp.frac >>> (default_shift bits T).toNat = T.carry_mask - 1 →
      2 ^ ((default_shift bits T).toNat - 1) ≤
        fp.frac &&& (2 ^ (default_shift bits T).toNat - 1) →
      (round_to_float_step bits T fp).frac &&& T.carry_mask = T.carry_mask ∧
      (round_to_float bits T fp).frac = 2 ^ T.mantissa_size.toNat ∧
      (round_to_float bits T fp).exp = fp.exp + default_shift bits T + 1) := by
  constructor
  · intro h
    simp only [round_to_float]
    rw [if_pos h]
  · intro hms hbits hnorm hcm hshifted hup
    have hsnat : (default_shift bits T).toNat = bits - T.mantissa_size.toNat - 1 := by
      simp only [default_shift]; omega
    set s := (default_shift bits T).toNat with hsdef
    have hs1 : 1 ≤ s := by omega
    have hslt : s < bits := by omega
    have hP := rounding_parameters_getD bits s hslt
    rw [if_neg (by omega)] at hP
    have hstep : round_to_float_step bits T fp =
        round_nearest_tie_even bits fp
          ((rounding_parameters bits).getD s default_params) := by
      simp only [round_to_float_step]
      rw [if_neg (by omega)]
    rw [hP] at hstep
    have hodd : fp.frac >>> s &&& 1 = 1 := by
      rw [hshifted, hcm, Nat.and_one_is_mod]
      have h2p : 2 ^ (T.mantissa_size.toNat + 1) = 2 ^ T.mantissa_size.toNat * 2 :=
        pow_succ 2 _
      have h1p : 0 < 2 ^ T.mantissa_size.toNat := Nat.pos_pow_of_pos _ (by norm_num)
      omega
    have hcmlt : T.carry_mask < 2 ^ bits := by
      rw [hcm]
      exact Nat.pow_lt_pow_right (by norm_num) (by omega)
    have hcm1 : 1 ≤ T.carry_mask := by
      rw [hcm]
      exact Nat.pos_pow_of_pos _ (by norm_num)
    have hfrac_step : (round_to_float_step bits T fp).frac = T.carry_mask := by
      rw [hstep]
      simp only [round_nearest_tie_even, round_nearest, shr, Int.toNat_natCast]
      split
      · rw [hshifted, Nat.sub_add_cancel hcm1, Nat.mod_eq_of_lt hcmlt]
      · rename_i h
        exfalso
        rcases lt_or_eq_of_le hup with hA | hH
        · rw [Nat.and_pow_two_sub_one_eq_mod] at hA
          simp at h
          exact absurd h.1 (Nat.not_le.mpr hA)
        · simp [hodd, hH.symm] at h
    have hexp_step : (round_to_float_step bits T fp).exp =
        fp.exp + default_shift bits T := by
      rw [hstep]
      simp only [round_nearest_tie_even, round_nearest, shr]
      simp only [default_shift] at hsdef ⊢
      omega
    have hcarry : (round_to_float_step bits T fp).frac &&& T.carry_mask =
        T.carry_mask := by
      rw [hfrac_step, Nat.and_self]
    refine ⟨hcarry, ?_, ?_⟩
    · simp only [round_to_float]
      rw [if_pos hcarry]
      simp only [shr]
      rw [hfrac_step, hcm]
      show 2 ^ (T.mantissa_size.toNat + 1) >>> 1 = 2 ^ T.mantissa_size.toNat
      rw [Nat.shiftRight_eq_div_pow, pow_one, pow_succ]
      exact Nat.mul_div_cancel _ (by norm_num)
    · simp only [round_to_float]
      rw [if_pos hcarry]
      simp only [shr]
      rw [hexp_step]

/-- Witness for C4: f64 with a 64-bit mantissa, input significand with all 53
post-shift bits set and a halfway truncated part; the carry branch fires and
the exponent increments once. -/
theorem c4_carry_correctness_witness :
    (round_to_float_step 64 f64_traits ⟨0xFFFFFFFFFFFFFC00, 0⟩).frac &&&
        f64_traits.carry_mask = f64_traits.carry_mask ∧
    (round_to_float 64 f64_traits ⟨0xFFFFFFFFFFFFFC00, 0⟩).frac =
        2 ^ f64_traits.mantissa_size.toNat ∧
    (round_to_float 64 f64_traits ⟨0xFFFFFFFFFFFFFC00, 0⟩).exp =
        (ExtendedFloat.mk 0xFFFFFFFFFFFFFC00 0).exp + default_shift 64 f64_traits + 1 :=
  (c4_carry_correctness 64 f64_traits ⟨0xFFFFFFFFFFFFFC00, 0⟩).2 (by decide)
    (by decide) (by decide) (by decide) (by decide) (by decide)

/-- C9: avoid_overflow modifies fp only when all three conditions hold: the
exponent is at least MAX_EXPONENT, diff indexes OVERFLOW_MASK, and the masked
significand is zero; in every other case significand and exponent are exactly
unchanged, and when it acts the resulting exponent is exactly
MAX_EXPONENT - 1 (the significand being the machine left shift by diff + 1). -/
theorem c9_avoid_overflow_frame (bits : Nat) (T : FloatTraits)
    (fp : ExtendedFloat) :
    (fp.exp < T.max_exponent → avoid_overflow bits T fp = fp) ∧
    (T.max_exponent ≤ fp.exp →
      T.overflow_mask.length ≤ (fp.exp - T.max_exponent).toNat →
      avoid_overflow bits T fp = fp) ∧
    (T.max_exponent ≤ fp.exp →
      ∀ mask, T.overflow_mask[(fp.exp - T.max_exponent).toNat]? = some mask →
        fp.frac &&& mask ≠ 0 → avoid_overflow bits T fp = fp) ∧
    (T.max_exponent ≤ fp.exp →
      ∀ mask, T.overflow_mask[(fp.exp - T.max_exponent).toNat]? = some mask →
        fp.frac &&& mask = 0 →
        (avoid_overflow bits T fp).exp = T.max_exponent - 1 ∧
        (avoid_overflow bits T fp).frac =
          (fp.frac <<< ((fp.exp - T.max_exponent).toNat + 1)) % 2 ^ bits) := by
  refine ⟨?_, ?_, ?_, ?_⟩
  · intro h
    simp only [avoid_overflow]
    rw [if_neg (by omega)]
  · intro h1 h2
    simp only [avoid_overflow]
    rw [if_pos h1, List.getElem?_eq_none h2]
  · intro h1 mask hm hnz
    simp only [avoid_overflow]
    rw [if_pos h1, hm]
    simp only []
    rw [if_neg hnz]
  · intro h1 mask hm hz
    simp only [avoid_overflow]
    rw [if_pos h1, hm]
    simp only []
    rw [if_pos hz]
    have ht : (fp.exp - T.max_exponent + 1).toNat =
        (fp.exp - T.max_exponent).toNat + 1 := by omega
    simp only [shl, ht]
    exact ⟨by omega, by trivial⟩

/-- Witness for C9 on the untouched case (f64, exponent below MAX_EXPONENT). -/
theorem c9_avoid_overflow_frame_witness :
    avoid_overflow 64 f64_traits ⟨5, 0⟩ = ⟨5, 0⟩ :=
  (c9_avoid_overflow_frame 64 f64_traits ⟨5, 0⟩).1 (by decide)

theorem and_window_zero_lt {frac p k : Nat}
    (h0 : frac &&& ((2 ^ (k + 1) - 1) <<< p) = 0) (h1 : frac < 2 ^ (p + k + 1)) :
    frac < 2 ^ p := by
  apply Nat.lt_pow_two_of_testBit
  intro i hi
  by_cases hik : i < p + k + 1
  · have hm : ((2 ^ (k + 1) - 1) <<< p).testBit i = true := by
      rw [Nat.testBit_shiftLeft, Nat.testBit_two_pow_sub_one]
      simp only [ge_iff_le, Bool.and_eq_true, decide_eq_true_eq]
      omega
    have hbit := congrArg (fun n => n.testBit i) h0
    simp only [Nat.testBit_and, hm, Bool.and_true, Nat.zero_testBit] at hbit
    exact hbit
  · exact Nat.testBit_lt_two_pow
      (lt_of_lt_of_le h1 (Nat.pow_le_pow_right (by norm_num) (by omega)))

/-- C5 counterexample: for f64 with a 64-bit mantissa and the input with
significand 2^63 at exponent MAX_EXPONENT, all conditions of the claim hold
(exponent at least max, diff = 0 a valid index, masked significand zero), yet
the left shift by diff + 1 drops the only set bit: the result significand is
0, so the shift is not lossless as the claim states. -/
theorem c5_avoid_overflow_counterexample :
    f64_traits.max_exponent ≤ (ExtendedFloat.mk (2 ^ 63) 972).exp ∧
    ((ExtendedFloat.mk (2 ^ 63) 972).exp - f64_traits.max_exponent).toNat <
      f64_traits.overflow_mask.length ∧
    (ExtendedFloat.mk (2 ^ 63) 972).frac &&& f64_traits.overflow_mask.getD 0 0 = 0 ∧
    (avoid_overflow 64 f64_traits ⟨2 ^ 63, 972⟩).frac = 0 ∧
    (ExtendedFloat.mk (2 ^ 63) 972).frac ≠ 0 := by decide

/-- C5 (amended): under the additional premise that the significand fits below
the carry bit (frac < 2^(MANTISSA_SIZE + 1), as is guaranteed after
round_to_float), avoid_overflow left-shifts by diff + 1 exactly when the
exponent is at least MAX_EXPONENT, diff indexes OVERFLOW_MASK and the masked
significand is zero — and the shift then loses no set bit (the new significand
is exactly the old one times 2^(diff + 1)) while the exponent becomes
MAX_EXPONENT - 1; in every other case fp is unchanged.  The overflow-mask
table structure is the one of both concrete instances (entry i masks the
window of i + 1 bits ending at the hidden bit). -/
theorem c5_avoid_overflow_amended (bits ms : Nat) (T : FloatTraits)
    (fp : ExtendedFloat)
    (hlen : T.overflow_mask.length = ms + 1)
    (hmask : ∀ i, i < ms + 1 →
      T.overflow_mask.getD i 0 = (2 ^ (i + 1) - 1) <<< (ms - i))
    (hbits : ms + 1 ≤ bits) :
    (fp.exp < T.max_exponent → avoid_overflow bits T fp = fp) ∧
    (T.max_exponent ≤ fp.exp → ms + 1 ≤ (fp.exp - T.max_exponent).toNat →
      avoid_overflow bits T fp = fp) ∧
    (T.max_exponent ≤ fp.exp → (fp.exp - T.max_exponent).toNat < ms + 1 →
      fp.frac &&& T.overflow_mask.getD (fp.exp - T.max_exponent).toNat 0 ≠ 0 →
      avoid_overflow bits T fp = fp) ∧
    (T.max_exponent ≤ fp.exp → (fp.exp - T.max_exponent).toNat < ms + 1 →
      fp.frac &&& T.overflow_mask.getD (fp.exp - T.max_exponent).toNat 0 = 0 →
      fp.frac < 2 ^ (ms + 1) →
      avoid_overflow bits T fp =
        ⟨fp.frac * 2 ^ ((fp.exp - T.max_exponent).toNat + 1),
          T.max_exponent - 1⟩) := by
  refine ⟨?_, ?_, ?_, ?_⟩
  · intro h
    simp only [avoid_overflow]
    rw [if_neg (by omega)]
  · intro h1 h2
    simp only [avoid_overflow]
    rw [if_pos h1, List.getElem?_eq_none (by omega)]
  · intro h1 h2 h3
    have hidx : (fp.exp - T.max_exponent).toNat < T.overflow_mask.length := by omega
    simp only [avoid_overflow]
    rw [if_pos h1, List.getElem?_eq_getElem hidx]
    simp only []
    rw [← List.getD_eq_getElem _ 0 hidx] at *
    rw [if_neg h3]
  · intro h1 h2 h3 h4
    have hidx : (fp.exp - T.max_exponent).toNat < T.overflow_mask.length := by omega
    have hget := hmask (fp.exp - T.max_exponent).toNat h2
    have hwin : fp.frac < 2 ^ (ms - (fp.exp - T.max_exponent).toNat) := by
      apply and_window_zero_lt (k := (fp.exp - T.max_exponent).toNat)
      · rw [← hget]
        exact h3
      · have he : ms - (fp.exp - T.max_exponent).toNat +
            (fp.exp - T.max_exponent).toNat + 1 = ms + 1 := by omega
        rw [he]
        exact h4
    have hfin : fp.frac * 2 ^ ((fp.exp - T.max_exponent).toNat + 1) < 2 ^ bits := by
      calc fp.frac * 2 ^ ((fp.exp - T.max_exponent).toNat + 1) <
          2 ^ (ms - (fp.exp - T.max_exponent).toNat) *
            2 ^ ((fp.exp - T.max_exponent).toNat + 1) :=
            (Nat.mul_lt_mul_right (Nat.pos_pow_of_pos _ (by norm_num))).mpr hwin
        _ = 2 ^ (ms + 1) := by rw [← pow_add]; congr 1; omega
        _ ≤ 2 ^ bits := Nat.pow_le_pow_right (by norm_num) hbits
    simp only [avoid_overflow]
    rw [if_pos h1, List.getElem?_eq_getElem hidx]
    simp only []
    rw [← List.getD_eq_getElem _ 0 hidx] at *
    rw [if_pos h3]
    have ht : (fp.exp - T.max_exponent + 1).toNat =
        (fp.exp - T.max_exponent).toNat + 1 := by omega
    simp only [shl, ht, Nat.shiftLeft_eq, ExtendedFloat.mk.injEq]
    exact ⟨Nat.mod_eq_of_lt hfin, by omega⟩

/-- Witness for C5 (amended) on the acting case: f64, significand 1 (below
the hidden bit) at MAX_EXPONENT; the shift by one is exact. -/
theorem c5_avoid_overflow_amended_witness :
    avoid_overflow 64 f64_traits ⟨1, 972⟩ =
      ⟨(1 : Nat) * 2 ^ (((972 : Int) - f64_traits.max_exponent).toNat + 1),
        f64_traits.max_exponent - 1⟩ :=
  (c5_avoid_overflow_amended 64 52 f64_traits ⟨1, 972⟩ (by decide) (by decide)
    (by decide)).2.2.2 (by decide) (by decide) (by decide) (by decide)

/-- C10: structural invariant of the per-type rounding constants: each
OVERFLOW_MASK has exactly MANTISSA_SIZE + 1 entries (24 for f32, 53 for f64),
entry i being the window of i + 1 set bits whose highest sits at the
hidden-bit position MANTISSA_SIZE, and CARRY_MASK is 1 shifted past the
hidden bit (the literals are shared verbatim by the u64 and u128 mantissa
instantiations of the source macro). -/
theorem c10_rounding_constants :
    f32_traits.overflow_mask.length = f32_traits.mantissa_size.toNat + 1 ∧
    f32_traits.overflow_mask =
      (List.range 24).map (fun i => (2 ^ (i + 1) - 1) <<< (23 - i)) ∧
    f64_traits.overflow_mask.length = f64_traits.mantissa_size.toNat + 1 ∧
    f64_traits.overflow_mask =
      (List.range 53).map (fun i => (2 ^ (i + 1) - 1) <<< (52 - i)) ∧
    f32_traits.carry_mask = 2 ^ (f32_traits.mantissa_size.toNat + 1) ∧
    f64_traits.carry_mask = 2 ^ (f64_traits.mantissa_size.toNat + 1) := by
  decide

/-- C8: for each (mantissa width, native float) pair used by the source —
(u64, f32), (u64, f64), (u128, f32), (u128, f64) — the constant DEFAULT_SHIFT
index into the per-width rounding-parameter table is in bounds, and in the
denormal branch the index diff is nonnegative and in bounds whenever the
unchecked lookup executes. -/
theorem c8_table_index_safety :
    index_safety 64 f32_traits ∧ index_safety 64 f64_traits ∧
    index_safety 128 f32_traits ∧ index_safety 128 f64_traits := by
  refine ⟨?_, ?_, ?_, ?_⟩
  all_goals
    refine ⟨by decide, ?_, ?_⟩
    · rw [rounding_parameters_length]
      decide
    · intro fp h1 h2
      rw [rounding_parameters_length]
      simp only [default_shift, f32_traits, f64_traits] at h1 h2 ⊢
      omega

/-- Witness for C8 on the denormal branch of (u64, f64): at exponent -1100
the unchecked lookup executes and its index 26 is within the 64-entry table. -/
theorem c8_table_index_safety_witness :
    0 < f64_traits.denormal_exponent - (ExtendedFloat.mk 0 (-1100)).exp ∧
    (f64_traits.denormal_exponent - (ExtendedFloat.mk 0 (-1100)).exp).toNat <
      (rounding_parameters 64).length :=
  c8_table_index_safety.2.1.2.2 ⟨0, -1100⟩ (by decide) (by decide)

/-- C7 counterexample: at v = 43699 the multiply-shift quotient is 437 while
v / 100 = 436; the wrapping remainder then underflows to 2^32 - 1, so
fast_div does not agree with standard_div on every u32 value. -/
theorem c7_fast_div_counterexample :
    fast_div 43699 ≠ standard_div 43699 ∧
    fast_div 43699 = (437, 4294967295) ∧
    standard_div 43699 = (436, 99) := by
  decide

/-- C7 (amended): for every value v below 43699 (in particular for the at most
4-digit chunks the formatter feeds it), fast_div returns exactly
(v / 100, v % 100); the equivalence first fails at v = 43699. -/
theorem c7_fast_div_amended (v : Nat) (h : v < 43699) :
    fast_div v = standard_div v := by
  have hk := Nat.div_add_mod v 100
  have hr : v % 100 < 100 := Nat.mod_lt _ (by norm_num)
  set k := v / 100 with hkdef
  set r := v % 100 with hrdef
  have hsplit : v * 5243 = 524288 * k + (12 * k + 5243 * r) := by omega
  have hmul_lt : v * 5243 < 2 ^ 32 := by omega
  have hlt : 12 * k + 5243 * r < 524288 := by omega
  have hq : v * 5243 / 524288 = k := by
    rw [hsplit, Nat.mul_add_div (by norm_num), Nat.div_eq_of_lt hlt]
    omega
  simp only [fast_div, standard_div]
  rw [(by norm_num [Nat.shiftLeft_eq] :
    ((1 <<< (14 + 5)) + 100 - 1) / 100 = 5243)]
  rw [Nat.mod_eq_of_lt hmul_lt, Nat.shiftRight_eq_div_pow]
  rw [(by norm_num : (2 : Nat) ^ (14 + 5) = 524288), hq]
  have h100 : 100 * k < 2 ^ 32 := by omega
  rw [Nat.mod_eq_of_lt h100]
  simp only [Prod.mk.injEq]
  exact ⟨by trivial, by omega⟩

/-- Witness for C7 (amended) at the largest 4-digit value. -/
theorem c7_fast_div_amended_witness :
    fast_div 9999 = standard_div 9999 :=
  c7_fast_div_amended 9999 (by decide)

/-- C6 counterexample: on input "0.0a" in radix 10 the lenient parse succeeds
consuming 3 of the 4 bytes, and the strict variant reports InvalidDigit(3)
and not IncompleteFormat(3) as the claim states — matching the repository
test in traits.rs (try_from_bytes(b"0.0a", 10) = Err(invalid_digit(3))). -/
theorem c6_try_from_bytes_counterexample :
    parse_float_lenient 10 [48, 46, 48, 97] = some 3 ∧
    3 < ([48, 46, 48, 97] : List Nat).length ∧
    try_from_bytes 10 [48, 46, 48, 97] = .error (.invalidDigit 3) ∧
    try_from_bytes 10 [48, 46, 48, 97] ≠ .error (.incompleteFormat 3) := by
  decide

/-- C6 (amended): for every radix and byte input where lenient parsing
succeeds but consumes fewer bytes than the input length, the strict variant
returns the error InvalidDigit (not IncompleteFormat) carrying the index of
the first unconsumed byte, rather than a value. -/
theorem c6_try_from_bytes_amended (radix : Nat) (bytes : List Nat) (c : Nat)
    (hp : parse_float_lenient radix bytes = some c) (hc : c < bytes.length) :
    try_from_bytes radix bytes = .error (.invalidDigit c) := by
  simp only [try_from_bytes, hp]
  rw [if_pos hc]

/-- Witness for C6 (amended) at the repository test input "0.0a". -/
theorem c6_try_from_bytes_amended_witness :
    try_from_bytes 10 [48, 46, 48, 97] = .error (.invalidDigit 3) :=
  c6_try_from_bytes_amended 10 [48, 46, 48, 97] 3 (by decide) (by decide)
